import Mathlib

/-!
Shallow embedding of the nvda_remote_rs client core (src/lib.rs,
src/fingerprint.rs) and proofs about it.  Rust machine integers are
modelled as `Int` with explicit wrapping where the source casts;
fallible Rust code returns `Except`; a Rust panic (an `.unwrap()` on a
`None`/`Err`) is the `crash` outcome of `RunResult`.
-/

namespace NvdaRemote

/-- Outcome of running Rust code that may panic: either the value the code
returns, or a crash (a Rust panic, e.g. `Option::unwrap` on `None`). -/
inductive RunResult (α : Type) where
  | ok (a : α)
  | crash
  deriving DecidableEq, Repr

/-- Numeric value of one hexadecimal digit, `none` for a non-hex character
(the per-character validation inside the rust `hex` crate). -/
def hexDigitVal (c : Char) : Option Nat :=
  if 48 ≤ c.toNat ∧ c.toNat ≤ 57 then some (c.toNat - 48)
  else if 97 ≤ c.toNat ∧ c.toNat ≤ 102 then some (c.toNat - 87)
  else if 65 ≤ c.toNat ∧ c.toNat ≤ 70 then some (c.toNat - 55)
  else none

/-- Model of `hex::decode`: consumes pairs of hex digits into bytes, failing
on an odd-length input or on any non-hex character. -/
def hexDecode : List Char → Option (List Nat)
  | [] => some []
  | [_] => none
  | c1 :: c2 :: rest => do
    let h ← hexDigitVal c1
    let l ← hexDigitVal c2
    let bs ← hexDecode rest
    pure ((16 * h + l) :: bs)

/-- Lower-case hex digit for a nibble value below 16. -/
def hexNib (n : Nat) : Char :=
  if n < 10 then Char.ofNat (48 + n) else Char.ofNat (87 + n)

/-- Model of `hex::encode`: two lower-case hex digits per byte. -/
def hexEncode : List Nat → List Char
  | [] => []
  | b :: bs => hexNib (b / 16 % 16) :: hexNib (b % 16) :: hexEncode bs

/-- Model of `FingerprintCache` (src/fingerprint.rs): the rust
`HashMap<String, String>` from host to hex-encoded fingerprint, modelled as an
association list with unique keys; the list order stands for the map's
arbitrary iteration order. -/
structure FingerprintCache where
  fingerprints : List (String × String)
  deriving DecidableEq, Repr

/-- First entry for a key in an association list (models `HashMap::get`;
keys are unique in a `HashMap`, so first = only). -/
def lookupEntry : List (String × String) → String → Option String
  | [], _ => none
  | (k, v) :: rest, h => if k = h then some v else lookupEntry rest h

/-- Model of `HashMap::insert`: replace the entry for an existing key,
otherwise add a new entry. -/
def insertEntry : List (String × String) → String → String → List (String × String)
  | [], k, v => [(k, v)]
  | (k0, v0) :: rest, k, v =>
    if k0 = k then (k0, v) :: rest else (k0, v0) :: insertEntry rest k v

/-- Model of `FingerprintCache::contains`. -/
def FingerprintCache.contains (c : FingerprintCache) (host : String) : Bool :=
  (lookupEntry c.fingerprints host).isSome

/-- Model of `FingerprintCache::add_fingerprint`: hex-encode the bytes and
insert them for the host. -/
def FingerprintCache.add_fingerprint (c : FingerprintCache) (host : String)
    (fingerprint : List Nat) : FingerprintCache :=
  ⟨insertEntry c.fingerprints host (String.mk (hexEncode fingerprint))⟩

/-- Model of `FingerprintCache::get_fingerprint`: `None` when the host is
absent; otherwise the stored hex string is decoded with
`hex::decode(..).unwrap()`, so a stored value that is not valid hex is a
panic (`crash`). -/
def FingerprintCache.get_fingerprint (c : FingerprintCache) (host : String) :
    RunResult (Option (List Nat)) :=
  match lookupEntry c.fingerprints host with
  | none => .ok none
  | some fpHex =>
    match hexDecode fpHex.data with
    | some bytes => .ok (some bytes)
    | none => .crash

/-- Loop of `FingerprintCache::to_cert_store` over the cached entries:
each stored value is hex-decoded with `.unwrap()` and the bytes are handed to
`RootCertStore::add`, whose certificate parsing is the external webpki code,
here the parameter `parseCert` (`none` = the bytes are not a parseable
certificate); both failures are `.unwrap()`ed by the source, i.e. panics. -/
def certStoreLoop {α : Type} (parseCert : List Nat → Option α) :
    List (String × String) → RunResult (List α)
  | [] => .ok []
  | (_, fpHex) :: rest =>
    match hexDecode fpHex.data with
    | none => .crash
    | some bytes =>
      match parseCert bytes with
      | none => .crash
      | some anchor =>
        match certStoreLoop parseCert rest with
        | .ok anchors => .ok (anchor :: anchors)
        | .crash => .crash

/-- Model of `FingerprintCache::to_cert_store`: start from an empty root
store and add one trust anchor per cached entry. -/
def FingerprintCache.to_cert_store {α : Type} (parseCert : List Nat → Option α)
    (c : FingerprintCache) : RunResult (List α) :=
  certStoreLoop parseCert c.fingerprints

/-- Result of `ServerCertVerifier::verify_server_cert` on success. -/
inductive ServerCertVerified where
  | assertion
  deriving DecidableEq, Repr

/-- A rustls TLS error (its internal detail is irrelevant here). -/
inductive TlsErr where
  | err
  deriving DecidableEq, Repr

/-- A std::io error (its internal detail is irrelevant here). -/
inductive IoErr where
  | err
  deriving DecidableEq, Repr

/-- A serde_json error (its internal detail is irrelevant here). -/
inductive JsonErr where
  | err
  deriving DecidableEq, Repr

/-- Model of the `NVDARemoteError` enum of src/lib.rs.  Its only variants are
IO, TLS and JSON errors; there is no trust-rejected or trust-mismatch
variant. -/
inductive NVDARemoteError where
  | ioError (e : IoErr)
  | tlsError (e : TlsErr)
  | jsonError (e : JsonErr)
  deriving DecidableEq, Repr

/-- Model of `NoCertificateVerification::verify_server_cert` (src/lib.rs):
it ignores the presented certificate, the intermediates, the server name, the
OCSP response and the time, and returns `ServerCertVerified::assertion()`
unconditionally. -/
def verify_server_cert (end_entity : List Nat) (intermediates : List (List Nat))
    (server_name : String) (ocsp_response : List Nat) (now : Nat) :
    Except TlsErr ServerCertVerified :=
  .ok .assertion

/-- Model of the `ConnectionType` enum. -/
inductive ConnectionType where
  | Master
  | Slave
  deriving DecidableEq, Repr

/-- Model of `ConnectionType::to_string`. -/
def ConnectionType.to_string : ConnectionType → String
  | .Master => "master"
  | .Slave => "slave"

/-- Model of the `NVDARemote` struct: the connection state visible to the
embedded operations.  The TLS socket itself is modelled separately (as the
pending input chunks); the event callback only echoes events and has no
effect on any result, so it is not part of the state. -/
structure NVDARemote where
  host : String
  port : Nat
  channel : String
  connection_type : String
  pressed_keys : List (Int × Int × Bool)
  uid : Int
  deriving DecidableEq, Repr

/-- Model of `NVDARemote::new` (src/lib.rs).  The outcomes of the three
external calls are parameters: `tcpConnect` is the result of
`TcpStream::connect` (an `Err` is propagated by `?` as an `IoError`),
`serverNameOk` models `rustls::pki_types::ServerName::try_from` (`false` =
the host string is not a valid server name, and the source `.unwrap()`s the
`Err`, i.e. panics), and `tlsConnect` is the result of
`tls_connector.connect` (an `Err` is propagated by `?` as a `TlsError`).
No fingerprint cache is consulted anywhere. -/
def NVDARemote.new (host key : String) (connection_type : ConnectionType) (port : Nat)
    (tcpConnect : Except IoErr Unit) (serverNameOk : String → Bool)
    (tlsConnect : Except TlsErr Unit) :
    RunResult (Except NVDARemoteError NVDARemote) :=
  match tcpConnect with
  | .error e => .ok (.error (.ioError e))
  | .ok _ =>
    if serverNameOk host then
      match tlsConnect with
      | .error e => .ok (.error (.tlsError e))
      | .ok _ => .ok (.ok ⟨host, port, key, connection_type.to_string, [], 0⟩)
    else .crash

/-- Model of `serde_json::Value`.  An integer literal is stored exactly
(`num`); a literal with a fraction or exponent part is stored by serde as an
`f64`, modelled here as `floatLit` carrying its lexeme, on which `as_i64` is
`none`.  Strings and object keys are lists of characters. -/
inductive Json where
  | null
  | bool (b : Bool)
  | num (n : Int)
  | floatLit (lexeme : List Char)
  | str (s : List Char)
  | arr (elems : List Json)
  | obj (fields : List (List Char × Json))

/-- The double-quote character. -/
def quoteC : Char := Char.ofNat 34

/-- The backslash character. -/
def backslashC : Char := Char.ofNat 92

/-- The opening-brace character. -/
def lbraceC : Char := Char.ofNat 123

/-- The closing-brace character. -/
def rbraceC : Char := Char.ofNat 125

/-- JSON insignificant whitespace (space, tab, line feed, carriage return). -/
def jsonWs (c : Char) : Bool :=
  c.toNat = 32 ∨ c.toNat = 9 ∨ c.toNat = 10 ∨ c.toNat = 13

/-- Skip insignificant whitespace. -/
def skipWs : List Char → List Char
  | [] => []
  | c :: rest => if jsonWs c then skipWs rest else c :: rest

/-- Prepend a decoded character to the result of a string-body scan. -/
def consChar (c : Char) : Option (List Char × List Char) → Option (List Char × List Char)
  | none => none
  | some (s, r) => some (c :: s, r)

/-- Four hex digits and their value, as in a `\uXXXX` escape. -/
def hex4Val : List Char → Option (Nat × List Char)
  | a :: b :: c :: d :: rest => do
    let va ← hexDigitVal a
    let vb ← hexDigitVal b
    let vc ← hexDigitVal c
    let vd ← hexDigitVal d
    pure (((va * 16 + vb) * 16 + vc) * 16 + vd, rest)
  | _ => none

/-- String-body scanner of the JSON deserializer, run after the opening
quote: returns the decoded characters and the input following the closing
quote.  Escapes are serde_json's: the short escapes, `\uXXXX` with
surrogate-pair handling, and rejection of unescaped control characters.  One
unit of fuel is spent per decoded character, so any fuel above the input
length is enough. -/
def parseStringBody : Nat → List Char → Option (List Char × List Char)
  | 0, _ => none
  | _ + 1, [] => none
  | f + 1, c :: rest =>
    if c = quoteC then some ([], rest)
    else if c = backslashC then
      match rest with
      | [] => none
      | e :: rest2 =>
        if e = quoteC then consChar quoteC (parseStringBody f rest2)
        else if e = backslashC then consChar backslashC (parseStringBody f rest2)
        else if e = '/' then consChar '/' (parseStringBody f rest2)
        else if e = 'b' then consChar (Char.ofNat 8) (parseStringBody f rest2)
        else if e = 'f' then consChar (Char.ofNat 12) (parseStringBody f rest2)
        else if e = 'n' then consChar (Char.ofNat 10) (parseStringBody f rest2)
        else if e = 'r' then consChar (Char.ofNat 13) (parseStringBody f rest2)
        else if e = 't' then consChar (Char.ofNat 9) (parseStringBody f rest2)
        else if e = 'u' then
          match hex4Val rest2 with
          | none => none
          | some (code, rest3) =>
            if code < 0xD800 ∨ 0xE000 ≤ code then
              consChar (Char.ofNat code) (parseStringBody f rest3)
            else if code < 0xDC00 then
              match rest3 with
              | b1 :: u1 :: rest4 =>
                if b1 = backslashC ∧ u1 = 'u' then
                  match hex4Val rest4 with
                  | some (lo, rest5) =>
                    if 0xDC00 ≤ lo ∧ lo < 0xE000 then
                      consChar (Char.ofNat (0x10000 + (code - 0xD800) * 0x400 + (lo - 0xDC00)))
                        (parseStringBody f rest5)
                    else none
                  | none => none
                else none
              | _ => none
            else none
        else none
    else if c.toNat < 32 then none
    else consChar c (parseStringBody f rest)

/-- Decimal-digit test. -/
def isDigitC (c : Char) : Bool :=
  48 ≤ c.toNat ∧ c.toNat ≤ 57

/-- Accumulate decimal digits into a natural number. -/
def digitsToNat : Nat → List Char → Nat
  | acc, [] => acc
  | acc, c :: rest => digitsToNat (acc * 10 + (c.toNat - 48)) rest

/-- Fraction/exponent tail of a number literal: the consumed characters
(empty when the literal is integral) and the remaining input.  A dot is only
consumed when a digit follows, and an exponent only with a nonempty digit
part; an ill-formed tail is left unconsumed and then fails in the enclosing
structure, matching serde's error on the same inputs. -/
def parseFracExp (l : List Char) : List Char × List Char :=
  let p1 : List Char × List Char :=
    match l with
    | c :: d :: rest =>
      if c = '.' ∧ isDigitC d then
        (c :: (d :: rest).takeWhile isDigitC, (d :: rest).dropWhile isDigitC)
      else ([], l)
    | _ => ([], l)
  let p2 : List Char × List Char :=
    match p1.2 with
    | c :: rest =>
      if c = 'e' ∨ c = 'E' then
        match rest with
        | s :: rest2 =>
          if s = '+' ∨ s = '-' then
            match rest2 with
            | d :: _ =>
              if isDigitC d then
                (c :: s :: rest2.takeWhile isDigitC, rest2.dropWhile isDigitC)
              else ([], p1.2)
            | [] => ([], p1.2)
          else if isDigitC s then
            (c :: rest.takeWhile isDigitC, rest.dropWhile isDigitC)
          else ([], p1.2)
        | [] => ([], p1.2)
      else ([], p1.2)
    | [] => ([], p1.2)
  (p1.1 ++ p2.1, p2.2)

/-- Number parser of the JSON deserializer: optional minus sign, an integer
part with serde's leading-zero rule (after a leading `0` no further digit is
consumed), then an optional fraction/exponent tail. -/
def parseNumber (l : List Char) : Option (Json × List Char) :=
  let sp : Bool × List Char :=
    match l with
    | c :: rest => if c = '-' then (true, rest) else (false, l)
    | [] => (false, l)
  match sp.2 with
  | [] => none
  | c :: t =>
    if isDigitC c then
      let intDs := if c.toNat = 48 then [c] else (c :: t).takeWhile isDigitC
      let l2 := if c.toNat = 48 then t else (c :: t).dropWhile isDigitC
      let fe := parseFracExp l2
      if fe.1.isEmpty then
        let n : Int := Int.ofNat (digitsToNat 0 intDs)
        some (.num (if sp.1 then -n else n), l2)
      else
        some (.floatLit ((if sp.1 then ['-'] else []) ++ intDs ++ fe.1), fe.2)
    else none

/-- Insert a parsed object member, replacing the value of an existing key in
place (serde_json's map keeps one value per key, the last one parsed). -/
def insertField : List (List Char × Json) → List Char → Json → List (List Char × Json)
  | [], k, v => [(k, v)]
  | (k0, v0) :: rest, k, v =>
    if k0 = k then (k0, v) :: rest else (k0, v0) :: insertField rest k v

mutual

/-- Value parser of the JSON deserializer (recursive descent; the fuel
decreases at every nested value, so any fuel above the input length is
enough). -/
def parseVal (fuel : Nat) (input : List Char) : Option (Json × List Char) :=
  match fuel with
  | 0 => none
  | f + 1 =>
    match input with
    | [] => none
    | c :: rest =>
      if c = quoteC then
        match parseStringBody (rest.length + 1) rest with
        | some (s, r) => some (.str s, r)
        | none => none
      else if c = lbraceC then
        match skipWs rest with
        | c2 :: rest2 =>
          if c2 = rbraceC then some (.obj [], rest2)
          else
            match parseMembersLoop f [] (skipWs rest) with
            | some (fields, r) => some (.obj fields, r)
            | none => none
        | [] => none
      else if c = '[' then
        match skipWs rest with
        | c2 :: rest2 =>
          if c2 = ']' then some (.arr [], rest2)
          else
            match parseElemsLoop f [] (skipWs rest) with
            | some (elems, r) => some (.arr elems, r)
            | none => none
        | [] => none
      else if c = 't' then
        match rest with
        | 'r' :: 'u' :: 'e' :: r => some (.bool true, r)
        | _ => none
      else if c = 'f' then
        match rest with
        | 'a' :: 'l' :: 's' :: 'e' :: r => some (.bool false, r)
        | _ => none
      else if c = 'n' then
        match rest with
        | 'u' :: 'l' :: 'l' :: r => some (.null, r)
        | _ => none
      else parseNumber input
termination_by structural fuel

/-- Object-member loop of the JSON deserializer, positioned at the opening
quote of a key. -/
def parseMembersLoop (fuel : Nat) (acc : List (List Char × Json)) (input : List Char) :
    Option (List (List Char × Json) × List Char) :=
  match fuel with
  | 0 => none
  | f + 1 =>
    match input with
    | [] => none
    | c :: rest =>
      if c = quoteC then
        match parseStringBody (rest.length + 1) rest with
        | some (key, rest2) =>
          match skipWs rest2 with
          | c2 :: rest3 =>
            if c2 = ':' then
              match parseVal f (skipWs rest3) with
              | some (v, rest4) =>
                match skipWs rest4 with
                | c3 :: rest5 =>
                  if c3 = ',' then parseMembersLoop f (insertField acc key v) (skipWs rest5)
                  else if c3 = rbraceC then some (insertField acc key v, rest5)
                  else none
                | [] => none
              | none => none
            else none
          | [] => none
        | none => none
      else none
termination_by structural fuel

/-- Array-element loop of the JSON deserializer, positioned at the first
character of an element. -/
def parseElemsLoop (fuel : Nat) (acc : List Json) (input : List Char) :
    Option (List Json × List Char) :=
  match fuel with
  | 0 => none
  | f + 1 =>
    match parseVal f input with
    | some (v, rest) =>
      match skipWs rest with
      | c :: rest2 =>
        if c = ',' then parseElemsLoop f (acc ++ [v]) (skipWs rest2)
        else if c = ']' then some (acc ++ [v], rest2)
        else none
      | [] => none
    | none => none
termination_by structural fuel

end

/-- Model of `serde_json::from_str::<Value>`: parse one value and require
only whitespace after it; `none` is serde's parse error. -/
def jsonFromStr (s : String) : Option Json :=
  let l := skipWs s.data
  match parseVal (l.length + 1) l with
  | some (j, rest) => if (skipWs rest).isEmpty then some j else none
  | none => none

/-- First value stored for a key in a parsed object (keys are unique after
`insertField`). -/
def objFind : List (List Char × Json) → List Char → Option Json
  | [], _ => none
  | (k, v) :: rest, key => if k = key then some v else objFind rest key

/-- Model of `serde_json::Value`'s string indexing `j["k"]`: the stored value
of the key on an object that has it, and `Null` on a missing key or a
non-object value. -/
def Json.idx (j : Json) (k : List Char) : Json :=
  match j with
  | .obj fields => (objFind fields k).getD .null
  | _ => .null

/-- Model of `Value::as_str`. -/
def Json.as_str : Json → Option (List Char)
  | .str s => some s
  | _ => none

/-- Model of `Value::as_i64`: an integer literal within the i64 range (a
larger literal is stored by serde as u64 or f64, and a fractional one as f64,
all of which give `None`). -/
def Json.as_i64 : Json → Option Int
  | .num n => if -(2 ^ 63) ≤ n ∧ n < 2 ^ 63 then some n else none
  | _ => none

/-- Rust's `as i32` cast: two's-complement truncation to 32 bits. -/
def wrap32 (n : Int) : Int :=
  (n + 2 ^ 31) % 2 ^ 32 - 2 ^ 31

/-- Serde_json's escaping of one string character: quote, backslash, the
short control escapes, `\u00XX` for the remaining control characters, and
every other character written as itself. -/
def escapeChar (c : Char) : List Char :=
  if c = quoteC then [backslashC, quoteC]
  else if c = backslashC then [backslashC, backslashC]
  else if c.toNat = 8 then [backslashC, 'b']
  else if c.toNat = 9 then [backslashC, 't']
  else if c.toNat = 10 then [backslashC, 'n']
  else if c.toNat = 12 then [backslashC, 'f']
  else if c.toNat = 13 then [backslashC, 'r']
  else if c.toNat < 32 then [backslashC, 'u', '0', '0', hexNib (c.toNat / 16), hexNib (c.toNat % 16)]
  else [c]

/-- Escape a whole string body. -/
def escapeList : List Char → List Char
  | [] => []
  | c :: rest => escapeChar c ++ escapeList rest

/-- A serialized JSON string literal: quote, escaped body, quote. -/
def renderStr (s : List Char) : List Char :=
  quoteC :: escapeList s ++ [quoteC]

/-- The line-feed character. -/
def nlC : Char := Char.ofNat 10

/-- Member lines of the inner `fingerprints` object as
`serde_json::to_string_pretty` lays them out: each entry on its own line at
four spaces of indent, separated by commas. -/
def renderMembers : List (String × String) → List Char
  | [] => []
  | [(k, v)] =>
    [' ', ' ', ' ', ' '] ++ renderStr k.data ++ [':', ' '] ++ renderStr v.data
  | (k, v) :: e :: rest =>
    [' ', ' ', ' ', ' '] ++ renderStr k.data ++ [':', ' '] ++ renderStr v.data ++
      [',', nlC] ++ renderMembers (e :: rest)

/-- The inner `fingerprints` object, pretty-printed: `\x7b\x7d` when empty,
otherwise one entry per line with the closing brace at two spaces of
indent. -/
def renderInner (entries : List (String × String)) : List Char :=
  match entries with
  | [] => [lbraceC, rbraceC]
  | _ =>
    [lbraceC, nlC] ++ renderMembers entries ++ [nlC, ' ', ' ', rbraceC]

/-- Model of `serde_json::to_string_pretty(&self)` on a `FingerprintCache`
(the serialization inside `FingerprintCache::save_to_file`): the struct is an
object with the single field `fingerprints` holding the map, indented by two
spaces per level. -/
def FingerprintCache.save_to_string (c : FingerprintCache) : String :=
  String.mk ([lbraceC, nlC, ' ', ' '] ++ renderStr "fingerprints".data ++ [':', ' '] ++
    renderInner c.fingerprints ++ [nlC, rbraceC])

/-- Model of `FingerprintCache::save_to_file`: serialize (which cannot fail
for this type), then write, an `Err` of the write being propagated by `?` as
an `IoError` value.  The written file content is returned for inspection. -/
def FingerprintCache.save_to_file (c : FingerprintCache) (writeRes : Except IoErr Unit) :
    Except NVDARemoteError String :=
  match writeRes with
  | .ok _ => .ok c.save_to_string
  | .error e => .error (.ioError e)

/-- Values of the parsed `fingerprints` object, required by the
`HashMap<String, String>` field to all be JSON strings. -/
def entriesToPairs : List (List Char × Json) → Option (List (String × String))
  | [] => some []
  | (k, .str v) :: rest =>
    match entriesToPairs rest with
    | some ps => some ((String.mk k, String.mk v) :: ps)
    | none => none
  | _ => none

/-- Serde's derived deserialization of `FingerprintCache` from a parsed
value: an object with a `fingerprints` field holding an object of string
values; unknown extra fields are ignored, anything else is a decode error. -/
def cacheFromJson : Json → Option FingerprintCache
  | .obj fields =>
    match objFind fields "fingerprints".data with
    | some (.obj entries) =>
      match entriesToPairs entries with
      | some ps => some ⟨ps⟩
      | none => none
    | _ => none
  | _ => none

/-- Model of `serde_json::from_str::<FingerprintCache>`. -/
def cacheFromStr (s : String) : Option FingerprintCache :=
  (jsonFromStr s).bind cacheFromJson

/-- Model of `FingerprintCache::load_from_file`: the file-read outcome is the
parameter; a read error (including a missing file) yields an empty cache,
while the decode of successfully read contents is propagated by `?` as a
`JsonError` value when it fails. -/
def FingerprintCache.load_from_file (readRes : Except IoErr String) :
    Except NVDARemoteError FingerprintCache :=
  match readRes with
  | .error _ => .ok ⟨[]⟩
  | .ok data =>
    match cacheFromStr data with
    | some cache => .ok cache
    | none => .error (.jsonError .err)

/-- Model of the `EventType` enum of src/lib.rs. -/
inductive EventType where
  | Motd (text : String)
  | ChannelJoined (id : Int)
  | ChannelLeft
  | ChannelMessage (text : String) (sender : Int)
  | ClientJoined (id : Int) (name : String)
  | ClientLeft (id : Int)
  | Beep (hz len left right : Int)
  | Invalid (raw : String)
  deriving DecidableEq, Repr

/-- Replace the `uid` field of a connection (the `self.uid = ..` assignments
in `NVDARemote::parse`). -/
def NVDARemote.setUid (st : NVDARemote) (u : Int) : NVDARemote :=
  ⟨st.host, st.port, st.channel, st.connection_type, st.pressed_keys, u⟩

/-- Model of `NVDARemote::parse` (src/lib.rs).  The record text is decoded
with `serde_json::from_str(..).unwrap()`, so text that is not valid JSON is a
panic (`crash`); likewise each `.unwrap()` on a missing or wrongly-typed
required field of a recognized record type.  A record whose `type` is absent
or unrecognized becomes `Invalid` carrying the raw text.  The state is the
mutated `self`. -/
def NVDARemote.parse (st : NVDARemote) (data : String) :
    RunResult (EventType × NVDARemote) :=
  match jsonFromStr data with
  | none => .crash
  | some j =>
    let t := (j.idx "type".data).as_str
    if t = some "motd".data then
      match (j.idx "motd".data).as_str with
      | some s => .ok (.Motd (String.mk s), st)
      | none => .crash
    else if t = some "channel_joined".data then
      match (j.idx "origin".data).as_i64 with
      | some n => .ok (.ChannelJoined (wrap32 n), st.setUid (wrap32 n))
      | none => .crash
    else if t = some "channel_left".data then
      .ok (.ChannelLeft, st.setUid 0)
    else if t = some "tone".data then
      match (j.idx "hz".data).as_i64, (j.idx "length".data).as_i64,
            (j.idx "left".data).as_i64, (j.idx "right".data).as_i64 with
      | some hz, some len, some l, some r =>
        .ok (.Beep (wrap32 hz) (wrap32 len) (wrap32 l) (wrap32 r), st)
      | _, _, _, _ => .crash
    else .ok (.Invalid data, st)

/-- Model of `NVDARemote::send` (src/lib.rs): the message is serialized,
a newline is appended, and the bytes are written with
`write_all(..).await.unwrap()`.  The socket write's outcome is the parameter
`writeRes`; the serialized text never affects it, and a write failure is
`.unwrap()`ed by the source, i.e. a panic (`crash`), never an error value. -/
def NVDARemote.send (st : NVDARemote) (message : Json) (writeRes : Except IoErr Unit) :
    RunResult Unit :=
  match writeRes with
  | .ok _ => .ok ()
  | .error _ => .crash

/-- One delivery on the TLS socket as seen by a `read` call: a chunk of bytes
or a read error.  A list of chunks models the socket; past its end every read
reports end of stream. -/
inductive Chunk where
  | data (s : List Char)
  | readErr
  deriving Repr

/-- Split a chunk at its first newline: the part up to and including the
newline, and the part after it. -/
def splitAtNewline (s : List Char) : Option (List Char × List Char) :=
  match s with
  | [] => none
  | c :: rest =>
    if c.toNat = 10 then some ([c], rest)
    else
      match splitAtNewline rest with
      | some (pre, post) => some (c :: pre, post)
      | none => none

/-- Outcome of one `read_line` call on a freshly created `BufReader`. -/
inductive ReadOutcome where
  | line (l : List Char) (rest : List Chunk)
  | eof (rest : List Chunk)
  | rerror (rest : List Chunk)
  deriving Repr

/-- Model of `BufReader::read_line` on the `BufReader` that `NVDARemote::update`
creates anew on every call: starting from an empty internal buffer, it pulls
whole deliveries from the socket until a newline is seen or the stream ends.
`acc` is what has been accumulated into the output buffer so far.  When a
pulled delivery contains a newline, the part after the newline stays in the
`BufReader`'s internal buffer — which `update` drops on return, so it is gone
from the returned rest of the stream.  At end of stream, accumulated bytes
without a newline are returned as a final line; a read error surfaces as
`Err` from `read_line`. -/
def readLineFresh (acc : List Char) : List Chunk → ReadOutcome
  | [] => if acc.isEmpty then .eof [] else .line acc []
  | .readErr :: rest => .rerror rest
  | .data s :: rest =>
    match splitAtNewline s with
    | some (pre, _post) => .line (acc ++ pre) rest
    | none => readLineFresh (acc ++ s) rest

/-- Model of `NVDARemote::update` (src/lib.rs): create a fresh `BufReader`
over the socket, `read_line` once; zero bytes read (`eof`) and a read error
both return `None`; otherwise the line is parsed (which can panic) and the
event is returned.  The result carries the remaining socket chunks. -/
def NVDARemote.update (st : NVDARemote) (chunks : List Chunk) :
    RunResult (Option EventType × NVDARemote × List Chunk) :=
  match readLineFresh [] chunks with
  | .eof rest => .ok (none, st, rest)
  | .rerror rest => .ok (none, st, rest)
  | .line l rest =>
    match st.parse (String.mk l) with
    | .ok (ev, st2) => .ok (some ev, st2, rest)
    | .crash => .crash

/-- Drive `NVDARemote::update` as the caller's poll loop does, collecting the
events of one session until `update` first returns `None` (the fuel only
bounds the number of calls; each returned event consumes at least one chunk,
so any fuel above the chunk count is enough). -/
def runUpdates : Nat → NVDARemote → List Chunk → RunResult (List EventType × NVDARemote)
  | 0, st, _ => .ok ([], st)
  | f + 1, st, chunks =>
    match st.update chunks with
    | .crash => .crash
    | .ok (none, st2, _) => .ok ([], st2)
    | .ok (some ev, st2, rest) =>
      match runUpdates f st2 rest with
      | .ok (evs, st3) => .ok (ev :: evs, st3)
      | .crash => .crash

/-- Feed a list of already-framed records through `NVDARemote::parse` in
order, collecting the decoded events and threading the connection state. -/
def runParse (st : NVDARemote) : List String → RunResult (List EventType × NVDARemote)
  | [] => .ok ([], st)
  | r :: rest =>
    match st.parse r with
    | .crash => .crash
    | .ok (ev, st2) =>
      match runParse st2 rest with
      | .ok (evs, st3) => .ok (ev :: evs, st3)
      | .crash => .crash

/-- Pretty-printed inner-object text from the opening quote of a key onward,
as it appears inside `save_to_string`: used to state the reader's round trip
over the serialized form. -/
def renderFromKey : List (String × String) → List Char → List Char
  | [], tail => tail
  | [(k, v)], tail =>
    renderStr k.data ++ [':', ' '] ++ renderStr v.data ++ [nlC, ' ', ' ', rbraceC] ++ tail
  | (k, v) :: e :: rest, tail =>
    renderStr k.data ++ [':', ' '] ++ renderStr v.data ++ [',', nlC, ' ', ' ', ' ', ' ']
      ++ renderFromKey (e :: rest) tail

/-- Effect of one decoded event on the membership id, read off from
`NVDARemote::parse`: `ChannelJoined` sets it to the carried id,
`ChannelLeft` clears it, and no other event touches it. -/
def uidStep (u : Int) : EventType → Int
  | .ChannelJoined n => n
  | .ChannelLeft => 0
  | _ => u

/-- Claim-side membership id over a reversed event list: the id of the most
recently seen `ChannelJoined`, `0` after a `ChannelLeft` or when none was
seen. -/
def lastJoinUidRev : List EventType → Int
  | [] => 0
  | .ChannelJoined n :: _ => n
  | .ChannelLeft :: _ => 0
  | _ :: rest => lastJoinUidRev rest

/-- The claim's phrasing of the membership id after a list of events: the
origin of the most recent `ChannelJoined` since the last `ChannelLeft`, and
`0` otherwise. -/
def lastJoinUid (evs : List EventType) : Int :=
  lastJoinUidRev evs.reverse

theorem escapeList_length_ge (s : List Char) : s.length ≤ (escapeList s).length := by
  induction s with
  | nil => simp [escapeList]
  | cons c s ih =>
    have hc : 1 ≤ (escapeChar c).length := by
      unfold escapeChar
      split_ifs <;> simp
    simp only [escapeList, List.length_append, List.length_cons]
    omega

theorem hexDigitVal_hexNib (n : Nat) (h : n < 16) : hexDigitVal (hexNib n) = some n := by
  interval_cases n <;> rfl

theorem psb_bsq (f : Nat) (l : List Char) :
    parseStringBody (f + 1) (backslashC :: quoteC :: l) = consChar quoteC (parseStringBody f l) :=
  rfl

theorem psb_bsbs (f : Nat) (l : List Char) :
    parseStringBody (f + 1) (backslashC :: backslashC :: l)
      = consChar backslashC (parseStringBody f l) := rfl

theorem psb_bsb (f : Nat) (l : List Char) :
    parseStringBody (f + 1) (backslashC :: 'b' :: l)
      = consChar (Char.ofNat 8) (parseStringBody f l) := rfl

theorem psb_bst (f : Nat) (l : List Char) :
    parseStringBody (f + 1) (backslashC :: 't' :: l)
      = consChar (Char.ofNat 9) (parseStringBody f l) := rfl

theorem psb_bsn (f : Nat) (l : List Char) :
    parseStringBody (f + 1) (backslashC :: 'n' :: l)
      = consChar (Char.ofNat 10) (parseStringBody f l) := rfl

theorem psb_bsf (f : Nat) (l : List Char) :
    parseStringBody (f + 1) (backslashC :: 'f' :: l)
      = consChar (Char.ofNat 12) (parseStringBody f l) := rfl

theorem psb_bsr (f : Nat) (l : List Char) :
    parseStringBody (f + 1) (backslashC :: 'r' :: l)
      = consChar (Char.ofNat 13) (parseStringBody f l) := rfl

theorem psb_quote (f : Nat) (l : List Char) :
    parseStringBody (f + 1) (quoteC :: l) = some ([], l) := rfl

theorem psb_step_u (f : Nat) (hi lo : Nat) (l : List Char) (hhi : hi < 16) (hlo : lo < 16)
    (hlow : ((0 * 16 + 0) * 16 + hi) * 16 + lo < 0xD800) :
    parseStringBody (f + 1) (backslashC :: 'u' :: '0' :: '0' :: hexNib hi :: hexNib lo :: l)
      = consChar (Char.ofNat (((0 * 16 + 0) * 16 + hi) * 16 + lo)) (parseStringBody f l) := by
  have n1 : ('u' : Char) ≠ quoteC := by decide
  have n2 : ('u' : Char) ≠ backslashC := by decide
  have n3 : ('u' : Char) ≠ '/' := by decide
  have n4 : ('u' : Char) ≠ 'b' := by decide
  have n5 : ('u' : Char) ≠ 'f' := by decide
  have n6 : ('u' : Char) ≠ 'n' := by decide
  have n7 : ('u' : Char) ≠ 'r' := by decide
  have n8 : ('u' : Char) ≠ 't' := by decide
  have nq : ¬(backslashC = quoteC) := by decide
  have e0 : hexDigitVal '0' = some 0 := rfl
  simp [parseStringBody, nq, n1, n2, n3, n4, n5, n6, n7, n8, hex4Val, e0,
    hexDigitVal_hexNib hi hhi, hexDigitVal_hexNib lo hlo, hlow]
  intro hge hlt
  exact absurd hge (by omega)

theorem psb_step_plain (f : Nat) (c : Char) (l : List Char) (h1 : ¬c = quoteC)
    (h2 : ¬c = backslashC) (h3 : ¬c.toNat < 32) :
    parseStringBody (f + 1) (c :: l) = consChar c (parseStringBody f l) := by
  simp [parseStringBody, h1, h2, h3]

theorem parseStringBody_escape : ∀ (s : List Char) (f : Nat) (rest : List Char),
    s.length + 1 ≤ f →
    parseStringBody f (escapeList s ++ quoteC :: rest) = some (s, rest) := by
  intro s
  induction s with
  | nil =>
    intro f rest hf
    obtain ⟨f', rfl⟩ : ∃ g, f = g + 1 := ⟨f - 1, by omega⟩
    simp [escapeList, psb_quote]
  | cons c s ih =>
    intro f rest hf
    obtain ⟨f', rfl⟩ : ∃ g, f = g + 1 := ⟨f - 1, by omega⟩
    have hf' : s.length + 1 ≤ f' := by
      simp only [List.length_cons] at hf
      omega
    have hih := ih f' rest hf'
    by_cases h1 : c = quoteC
    · subst h1
      simp [escapeList, escapeChar, psb_bsq, consChar, hih]
    · by_cases h2 : c = backslashC
      · subst h2
        have nq : ¬(backslashC = quoteC) := by decide
        simp [escapeList, escapeChar, nq, psb_bsbs, consChar, hih]
      · by_cases h3 : c.toNat = 8
        · have hc : Char.ofNat 8 = c := by rw [← h3, Char.ofNat_toNat]
          simp [escapeList, escapeChar, h1, h2, h3, psb_bsb, consChar, hih]
          try exact hc
        · by_cases h4 : c.toNat = 9
          · have hc : Char.ofNat 9 = c := by rw [← h4, Char.ofNat_toNat]
            simp [escapeList, escapeChar, h1, h2, h3, h4, psb_bst, consChar, hih]
            try exact hc
          · by_cases h5 : c.toNat = 10
            · have hc : Char.ofNat 10 = c := by rw [← h5, Char.ofNat_toNat]
              simp [escapeList, escapeChar, h1, h2, h3, h4, h5, psb_bsn, consChar, hih]
              try exact hc
            · by_cases h6 : c.toNat = 12
              · have hc : Char.ofNat 12 = c := by rw [← h6, Char.ofNat_toNat]
                simp [escapeList, escapeChar, h1, h2, h3, h4, h5, h6, psb_bsf, consChar, hih]
                try exact hc
              · by_cases h7 : c.toNat = 13
                · have hc : Char.ofNat 13 = c := by rw [← h7, Char.ofNat_toNat]
                  simp [escapeList, escapeChar, h1, h2, h3, h4, h5, h6, h7, psb_bsr, consChar, hih]
                  try exact hc
                · by_cases h8 : c.toNat < 32
                  · have hhi : c.toNat / 16 < 16 := by omega
                    have hlo : c.toNat % 16 < 16 := by omega
                    have hlow : ((0 * 16 + 0) * 16 + c.toNat / 16) * 16 + c.toNat % 16 < 0xD800 := by
                      omega
                    have hcode : ((0 * 16 + 0) * 16 + c.toNat / 16) * 16 + c.toNat % 16
                        = c.toNat := by omega
                    have hc : Char.ofNat c.toNat = c := Char.ofNat_toNat c
                    have hstep := psb_step_u f' (c.toNat / 16) (c.toNat % 16)
                      (escapeList s ++ quoteC :: rest) hhi hlo hlow
                    rw [hcode, hc] at hstep
                    simp [escapeList, escapeChar, h1, h2, h3, h4, h5, h6, h7, h8, hstep,
                      consChar, hih]
                  · simp [escapeList, escapeChar, h1, h2, h3, h4, h5, h6, h7, h8,
                      psb_step_plain, consChar, hih]

theorem parseVal_quote_step (g : Nat) (X : List Char) :
    parseVal (g + 1) (quoteC :: X)
      = match parseStringBody (X.length + 1) X with
        | some (s, r) => some (Json.str s, r)
        | none => none := rfl

theorem parseVal_lbrace_step (g : Nat) (rest : List Char) :
    parseVal (g + 1) (lbraceC :: rest)
      = match skipWs rest with
        | c2 :: rest2 =>
          if c2 = rbraceC then some (.obj [], rest2)
          else
            match parseMembersLoop g [] (skipWs rest) with
            | some (fields, r) => some (.obj fields, r)
            | none => none
        | [] => none := rfl

theorem pml_quote_step (g : Nat) (acc : List (List Char × Json)) (X : List Char) :
    parseMembersLoop (g + 1) acc (quoteC :: X)
      = match parseStringBody (X.length + 1) X with
        | some (key, rest2) =>
          match skipWs rest2 with
          | c2 :: rest3 =>
            if c2 = ':' then
              match parseVal g (skipWs rest3) with
              | some (v, rest4) =>
                match skipWs rest4 with
                | c3 :: rest5 =>
                  if c3 = ',' then parseMembersLoop g (insertField acc key v) (skipWs rest5)
                  else if c3 = rbraceC then some (insertField acc key v, rest5)
                  else none
                | [] => none
              | none => none
            else none
          | [] => none
        | none => none := rfl

theorem skipWs_quote (l : List Char) : skipWs (quoteC :: l) = quoteC :: l := rfl

theorem skipWs_colon (l : List Char) : skipWs (':' :: l) = ':' :: l := rfl

theorem skipWs_comma (l : List Char) : skipWs (',' :: l) = ',' :: l := rfl

theorem skipWs_nl (l : List Char) : skipWs (nlC :: l) = skipWs l := rfl

theorem skipWs_sp (l : List Char) : skipWs (' ' :: l) = skipWs l := rfl

theorem skipWs_rbrace (l : List Char) : skipWs (rbraceC :: l) = rbraceC :: l := rfl

theorem skipWs_lbrace (l : List Char) : skipWs (lbraceC :: l) = lbraceC :: l := rfl

theorem renderFromKey_cons (p : String × String) (l : List (String × String))
    (tail : List Char) : ∃ z, renderFromKey (p :: l) tail = quoteC :: z := by
  obtain ⟨k, v⟩ := p
  cases l with
  | nil => exact ⟨_, rfl⟩
  | cons e rest => exact ⟨_, rfl⟩

theorem skipWs_fromKey (p : String × String) (l : List (String × String)) (tail : List Char) :
    skipWs (renderFromKey (p :: l) tail) = renderFromKey (p :: l) tail := by
  obtain ⟨z, hz⟩ := renderFromKey_cons p l tail
  rw [hz]
  exact skipWs_quote z

theorem pml_member_step (g : Nat) (acc : List (List Char × Json)) (k v : String)
    (SEP : List Char) :
    parseMembersLoop (g + 1 + 1) acc (renderStr k.data ++ [':', ' '] ++ renderStr v.data ++ SEP)
      = match skipWs SEP with
        | c3 :: rest5 =>
          if c3 = ',' then
            parseMembersLoop (g + 1) (insertField acc k.data (.str v.data)) (skipWs rest5)
          else if c3 = rbraceC then some (insertField acc k.data (.str v.data), rest5)
          else none
        | [] => none := by
  have hk : k.data.length + 1
      ≤ (escapeList k.data ++ quoteC :: ':' :: ' ' :: quoteC ::
          (escapeList v.data ++ quoteC :: SEP)).length + 1 := by
    have := escapeList_length_ge k.data
    simp only [List.length_append, List.length_cons]
    omega
  have hv : v.data.length + 1 ≤ (escapeList v.data ++ quoteC :: SEP).length + 1 := by
    have := escapeList_length_ge v.data
    simp only [List.length_append, List.length_cons]
    omega
  simp only [renderStr, List.cons_append, List.append_assoc, List.singleton_append,
    List.nil_append]
  rw [pml_quote_step]
  rw [parseStringBody_escape k.data _
    (':' :: ' ' :: quoteC :: (escapeList v.data ++ quoteC :: SEP)) hk]
  dsimp only
  rw [show skipWs (':' :: ' ' :: quoteC :: (escapeList v.data ++ quoteC :: SEP))
      = ':' :: ' ' :: quoteC :: (escapeList v.data ++ quoteC :: SEP) from rfl]
  dsimp only
  rw [if_pos rfl]
  rw [show skipWs (' ' :: quoteC :: (escapeList v.data ++ quoteC :: SEP))
      = quoteC :: (escapeList v.data ++ quoteC :: SEP) from rfl]
  rw [parseVal_quote_step]
  rw [parseStringBody_escape v.data _ SEP hv]

theorem parseMembersLoop_render :
    ∀ (entries : List (String × String)) (g : Nat) (acc : List (List Char × Json))
      (tail : List Char), entries.length ≤ g → entries ≠ [] →
      parseMembersLoop (g + 1) acc (renderFromKey entries tail)
        = some (entries.foldl (fun a p => insertField a p.1.data (.str p.2.data)) acc, tail) := by
  intro entries
  induction entries with
  | nil => intro g acc tail _ hne; exact absurd rfl hne
  | cons p rest ih =>
    obtain ⟨k, v⟩ := p
    intro g acc tail hg _
    cases rest with
    | nil =>
      obtain ⟨g2, rfl⟩ : ∃ t, g = t + 1 := ⟨g - 1, by simp at hg; omega⟩
      have hr : renderFromKey [(k, v)] tail
          = renderStr k.data ++ [':', ' '] ++ renderStr v.data
              ++ (nlC :: ' ' :: ' ' :: rbraceC :: tail) := by
        simp [renderFromKey, List.append_assoc]
      rw [hr, pml_member_step]
      rw [show skipWs (nlC :: ' ' :: ' ' :: rbraceC :: tail) = rbraceC :: tail from rfl]
      dsimp only
      have hne1 : ¬(rbraceC = ',') := by decide
      rw [if_neg hne1, if_pos rfl]
      simp [List.foldl]
    | cons e rest2 =>
      obtain ⟨g2, rfl⟩ : ∃ t, g = t + 1 := ⟨g - 1, by simp at hg; omega⟩
      have hr : renderFromKey ((k, v) :: e :: rest2) tail
          = renderStr k.data ++ [':', ' '] ++ renderStr v.data
              ++ (',' :: nlC :: ' ' :: ' ' :: ' ' :: ' ' :: renderFromKey (e :: rest2) tail) := by
        simp [renderFromKey, List.append_assoc]
      rw [hr, pml_member_step]
      rw [show skipWs (',' :: nlC :: ' ' :: ' ' :: ' ' :: ' ' :: renderFromKey (e :: rest2) tail)
          = ',' :: nlC :: ' ' :: ' ' :: ' ' :: ' ' :: renderFromKey (e :: rest2) tail from rfl]
      dsimp only
      rw [if_pos rfl]
      rw [show skipWs (nlC :: ' ' :: ' ' :: ' ' :: ' ' :: renderFromKey (e :: rest2) tail)
          = skipWs (renderFromKey (e :: rest2) tail) from rfl]
      rw [skipWs_fromKey]
      rw [ih g2 (insertField acc k.data (.str v.data)) tail (by simp at hg ⊢; omega) (by simp)]
      simp [List.foldl]

theorem renderMembers_fromKey : ∀ (entries : List (String × String)) (tail : List Char),
    entries ≠ [] →
    renderMembers entries ++ nlC :: ' ' :: ' ' :: rbraceC :: tail
      = ' ' :: ' ' :: ' ' :: ' ' :: renderFromKey entries tail := by
  intro entries
  induction entries with
  | nil => intro tail h; exact absurd rfl h
  | cons p rest ih =>
    obtain ⟨k, v⟩ := p
    intro tail _
    cases rest with
    | nil =>
      simp [renderMembers, renderFromKey, List.append_assoc]
    | cons e rest2 =>
      have hrec := ih tail (by simp)
      simp only [renderMembers, renderFromKey, List.append_assoc, List.cons_append,
        List.nil_append] at hrec ⊢
      rw [hrec]

theorem renderMembers_length_ge : ∀ entries : List (String × String),
    entries.length ≤ (renderMembers entries).length := by
  intro entries
  induction entries with
  | nil => simp [renderMembers]
  | cons p rest ih =>
    obtain ⟨k, v⟩ := p
    cases rest with
    | nil => simp [renderMembers]
    | cons e rest2 =>
      simp only [renderMembers, List.length_append, List.length_cons] at ih ⊢
      omega

theorem parseVal_inner_empty (g : Nat) (tail : List Char) :
    parseVal (g + 1) (renderInner [] ++ tail) = some (.obj [], tail) := rfl

theorem parseVal_inner (entries : List (String × String)) (g : Nat) (tail : List Char)
    (hne : entries ≠ []) (hg : entries.length ≤ g) :
    parseVal (g + 1 + 1) (renderInner entries ++ tail)
      = some (.obj (entries.foldl (fun a p => insertField a p.1.data (.str p.2.data)) []),
          tail) := by
  match entries, hne with
  | p :: rest, _ =>
    have hrm := renderMembers_fromKey (p :: rest) tail (by simp)
    have hr : renderInner (p :: rest) ++ tail
        = lbraceC :: nlC ::
            (renderMembers (p :: rest) ++ nlC :: ' ' :: ' ' :: rbraceC :: tail) := by
      simp [renderInner, List.append_assoc]
    rw [hr, parseVal_lbrace_step]
    rw [show skipWs (nlC :: (renderMembers (p :: rest) ++ nlC :: ' ' :: ' ' :: rbraceC :: tail))
        = skipWs (renderMembers (p :: rest) ++ nlC :: ' ' :: ' ' :: rbraceC :: tail) from rfl]
    rw [hrm]
    rw [show skipWs (' ' :: ' ' :: ' ' :: ' ' :: renderFromKey (p :: rest) tail)
        = skipWs (renderFromKey (p :: rest) tail) from rfl]
    rw [skipWs_fromKey]
    obtain ⟨z, hz⟩ := renderFromKey_cons p rest tail
    rw [hz]
    dsimp only
    have hqb : ¬(quoteC = rbraceC) := by decide
    rw [if_neg hqb]
    rw [← hz]
    rw [parseMembersLoop_render (p :: rest) g [] tail hg (by simp)]

theorem jsonFromStr_save (c : FingerprintCache) :
    jsonFromStr c.save_to_string
      = some (.obj [("fingerprints".data,
          .obj (c.fingerprints.foldl (fun a p => insertField a p.1.data (.str p.2.data)) []))]) := by
  obtain ⟨entries⟩ := c
  cases entries with
  | nil => rfl
  | cons p rest =>
    have hesc : escapeList "fingerprints".data
        = ['f', 'i', 'n', 'g', 'e', 'r', 'p', 'r', 'i', 'n', 't', 's'] := rfl
    have hfplen : ("fingerprints".data).length = 12 := rfl
    have hri : renderInner (p :: rest)
        = [lbraceC, nlC] ++ renderMembers (p :: rest) ++ [nlC, ' ', ' ', rbraceC] := rfl
    have hL : (FingerprintCache.save_to_string ⟨p :: rest⟩).data
        = lbraceC :: nlC :: ' ' :: ' ' :: quoteC :: ('f' :: 'i' :: 'n' :: 'g' :: 'e' :: 'r' :: 'p' :: 'r' :: 'i' :: 'n' :: 't' :: 's' :: quoteC :: ':' :: ' ' :: (renderInner (p :: rest) ++ [nlC, rbraceC])) := by
      simp [FingerprintCache.save_to_string, renderStr, hesc, List.cons_append,
        List.append_assoc]
    have hlen : (p :: rest).length + 3 ≤ (lbraceC :: nlC :: ' ' :: ' ' :: quoteC :: ('f' :: 'i' :: 'n' :: 'g' :: 'e' :: 'r' :: 'p' :: 'r' :: 'i' :: 'n' :: 't' :: 's' :: quoteC :: ':' :: ' ' :: (renderInner (p :: rest) ++ [nlC, rbraceC]))).length := by
      have h1 := renderMembers_length_ge (p :: rest)
      rw [hri]
      simp only [List.length_cons, List.length_append] at h1 ⊢
      omega
    simp only [jsonFromStr]
    rw [hL]
    rw [show skipWs (lbraceC :: nlC :: ' ' :: ' ' :: quoteC :: ('f' :: 'i' :: 'n' :: 'g' :: 'e' :: 'r' :: 'p' :: 'r' :: 'i' :: 'n' :: 't' :: 's' :: quoteC :: ':' :: ' ' :: (renderInner (p :: rest) ++ [nlC, rbraceC])))
        = lbraceC :: nlC :: ' ' :: ' ' :: quoteC :: ('f' :: 'i' :: 'n' :: 'g' :: 'e' :: 'r' :: 'p' :: 'r' :: 'i' :: 'n' :: 't' :: 's' :: quoteC :: ':' :: ' ' :: (renderInner (p :: rest) ++ [nlC, rbraceC])) from skipWs_lbrace _]
    rw [parseVal_lbrace_step]
    rw [show skipWs (nlC :: ' ' :: ' ' :: quoteC :: ('f' :: 'i' :: 'n' :: 'g' :: 'e' :: 'r' :: 'p' :: 'r' :: 'i' :: 'n' :: 't' :: 's' :: quoteC :: ':' :: ' ' :: (renderInner (p :: rest) ++ [nlC, rbraceC])))
        = quoteC :: ('f' :: 'i' :: 'n' :: 'g' :: 'e' :: 'r' :: 'p' :: 'r' :: 'i' :: 'n' :: 't' :: 's' :: quoteC :: ':' :: ' ' :: (renderInner (p :: rest) ++ [nlC, rbraceC])) from rfl]
    dsimp only
    have hqb : ¬(quoteC = rbraceC) := by decide
    rw [if_neg hqb]
    obtain ⟨g3, hg3⟩ : ∃ t, (lbraceC :: nlC :: ' ' :: ' ' :: quoteC :: ('f' :: 'i' :: 'n' :: 'g' :: 'e' :: 'r' :: 'p' :: 'r' :: 'i' :: 'n' :: 't' :: 's' :: quoteC :: ':' :: ' ' :: (renderInner (p :: rest) ++ [nlC, rbraceC]))).length = t + 1 + 1 + 1 := by
      refine ⟨(lbraceC :: nlC :: ' ' :: ' ' :: quoteC :: ('f' :: 'i' :: 'n' :: 'g' :: 'e' :: 'r' :: 'p' :: 'r' :: 'i' :: 'n' :: 't' :: 's' :: quoteC :: ':' :: ' ' :: (renderInner (p :: rest) ++ [nlC, rbraceC]))).length - 3, ?_⟩
      simp only [List.length_cons] at hlen ⊢
      omega
    have hg3' : (p :: rest).length ≤ g3 := by
      rw [hg3] at hlen
      simp only [List.length_cons] at hlen ⊢
      omega
    rw [hg3]
    rw [pml_quote_step]
    have hkey : parseStringBody (('f' :: 'i' :: 'n' :: 'g' :: 'e' :: 'r' :: 'p' :: 'r' :: 'i' :: 'n' :: 't' :: 's' :: quoteC :: ':' :: ' ' :: (renderInner (p :: rest) ++ [nlC, rbraceC])).length + 1) ('f' :: 'i' :: 'n' :: 'g' :: 'e' :: 'r' :: 'p' :: 'r' :: 'i' :: 'n' :: 't' :: 's' :: quoteC :: ':' :: ' ' :: (renderInner (p :: rest) ++ [nlC, rbraceC]))
        = some ("fingerprints".data, ':' :: ' ' :: (renderInner (p :: rest) ++ [nlC, rbraceC])) := by
      have hb : ("fingerprints".data).length + 1 ≤ ('f' :: 'i' :: 'n' :: 'g' :: 'e' :: 'r' :: 'p' :: 'r' :: 'i' :: 'n' :: 't' :: 's' :: quoteC :: ':' :: ' ' :: (renderInner (p :: rest) ++ [nlC, rbraceC])).length + 1 := by
        simp only [List.length_cons, hfplen]
        omega
      have h0 := parseStringBody_escape "fingerprints".data (('f' :: 'i' :: 'n' :: 'g' :: 'e' :: 'r' :: 'p' :: 'r' :: 'i' :: 'n' :: 't' :: 's' :: quoteC :: ':' :: ' ' :: (renderInner (p :: rest) ++ [nlC, rbraceC])).length + 1)
        (':' :: ' ' :: (renderInner (p :: rest) ++ [nlC, rbraceC])) hb
      rw [hesc] at h0
      simpa only [List.cons_append, List.nil_append] using h0
    rw [hkey]
    dsimp only
    rw [show skipWs (':' :: ' ' :: (renderInner (p :: rest) ++ [nlC, rbraceC])) = ':' :: ' ' :: (renderInner (p :: rest) ++ [nlC, rbraceC]) from rfl]
    dsimp only
    rw [if_pos rfl]
    rw [show skipWs (' ' :: (renderInner (p :: rest) ++ [nlC, rbraceC])) = renderInner (p :: rest) ++ [nlC, rbraceC] from rfl]
    rw [parseVal_inner (p :: rest) g3 [nlC, rbraceC] (by simp) hg3']
    dsimp only
    rw [show skipWs [nlC, rbraceC] = [rbraceC] from rfl]
    dsimp only
    have hbc : ¬(rbraceC = ',') := by decide
    rw [if_neg hbc, if_pos rfl]
    rfl

theorem insertField_fresh (k : List Char) (v : Json) :
    ∀ acc : List (List Char × Json), k ∉ acc.map Prod.fst →
      insertField acc k v = acc ++ [(k, v)]
  | [], _ => rfl
  | (k0, v0) :: rest, h => by
    simp only [List.map_cons, List.mem_cons, not_or] at h
    have hne : ¬(k0 = k) := fun hh => h.1 hh.symm
    simp [insertField, hne, insertField_fresh k v rest h.2]

theorem foldl_insertField_map : ∀ ps : List (String × String),
    ∀ acc : List (List Char × Json),
      (∀ p ∈ ps, p.1.data ∉ acc.map Prod.fst) →
      (ps.map (fun p => p.1.data)).Nodup →
      ps.foldl (fun a p => insertField a p.1.data (.str p.2.data)) acc
        = acc ++ ps.map (fun p => (p.1.data, .str p.2.data)) := by
  intro ps
  induction ps with
  | nil => intro acc _ _; simp
  | cons q rest ih =>
    obtain ⟨k, v⟩ := q
    intro acc hfresh hnd
    simp only [List.map_cons, List.nodup_cons] at hnd
    have hfr2 : ∀ p ∈ rest, p.1.data ∉ (acc ++ [(k.data, Json.str v.data)]).map Prod.fst := by
      intro p hp
      simp only [List.map_append, List.map_cons, List.map_nil, List.mem_append, List.mem_cons,
        List.not_mem_nil, or_false, not_or]
      constructor
      · exact fun hmem => hfresh p (List.mem_cons_of_mem _ hp) hmem
      · intro heq
        exact hnd.1 (heq ▸ List.mem_map_of_mem (fun p => p.1.data) hp)
    rw [List.foldl_cons]
    rw [insertField_fresh k.data (.str v.data) acc
      (hfresh (k, v) (List.mem_cons_self _ _))]
    rw [ih _ hfr2 hnd.2]
    simp

theorem entriesToPairs_map : ∀ ps : List (String × String),
    entriesToPairs (ps.map (fun p => (p.1.data, .str p.2.data))) = some ps
  | [] => rfl
  | (k, v) :: rest => by
    simp [entriesToPairs, entriesToPairs_map rest]

theorem load_save_roundtrip (c : FingerprintCache)
    (h : (c.fingerprints.map Prod.fst).Nodup) :
    FingerprintCache.load_from_file (.ok c.save_to_string) = .ok c := by
  obtain ⟨entries⟩ := c
  have hinj : Function.Injective String.data := by
    intro a b hab
    cases a
    cases b
    exact congrArg String.mk hab
  have hn2 : (entries.map (fun p => p.1.data)).Nodup := by
    have hmm : entries.map (fun p => p.1.data)
        = (entries.map Prod.fst).map String.data := by
      simp [List.map_map, Function.comp]
    rw [hmm]
    exact h.map hinj
  have hmap : entries.foldl (fun a p => insertField a p.1.data (.str p.2.data)) []
      = entries.map (fun p => (p.1.data, .str p.2.data)) := by
    have := foldl_insertField_map entries [] (by simp) hn2
    simpa using this
  have hj := jsonFromStr_save ⟨entries⟩
  rw [hmap] at hj
  simp only [FingerprintCache.load_from_file, cacheFromStr, hj, Option.bind]
  simp [cacheFromJson, objFind, entriesToPairs_map entries]
theorem parse_uid_step (st : NVDARemote) (data : String) (ev : EventType) (st2 : NVDARemote)
    (h : st.parse data = .ok (ev, st2)) : st2.uid = uidStep st.uid ev := by
  simp only [NVDARemote.parse] at h
  split at h
  · simp at h
  · split_ifs at h <;> (try split at h) <;>
      first
        | (rw [RunResult.ok.injEq, Prod.mk.injEq] at h
           obtain ⟨rfl, rfl⟩ := h
           simp [NVDARemote.setUid, uidStep])
        | simp at h

theorem runParse_uid (recs : List String) : ∀ (st : NVDARemote) (evs : List EventType)
    (st' : NVDARemote), runParse st recs = .ok (evs, st') →
    st'.uid = evs.foldl uidStep st.uid := by
  induction recs with
  | nil =>
    intro st evs st' h
    simp only [runParse] at h
    rw [RunResult.ok.injEq, Prod.mk.injEq] at h
    obtain ⟨rfl, rfl⟩ := h
    rfl
  | cons r rest ih =>
    intro st evs st' h
    simp only [runParse] at h
    split at h
    · simp at h
    · rename_i ev2 st2 hp
      split at h
      · rename_i evs0 st3 hr
        rw [RunResult.ok.injEq, Prod.mk.injEq] at h
        obtain ⟨rfl, rfl⟩ := h
        have hrec := ih st2 evs0 st3 hr
        rw [List.foldl_cons, hrec, parse_uid_step st r ev2 st2 hp]
      · simp at h

theorem foldl_uidStep_eq_lastJoinUid (evs : List EventType) :
    evs.foldl uidStep 0 = lastJoinUid evs := by
  induction evs using List.reverseRecOn with
  | nil => rfl
  | append_singleton evs e ih =>
    simp only [lastJoinUid, List.foldl_append, List.foldl, List.reverse_append,
      List.reverse_singleton, List.singleton_append]
    rw [ih]
    cases e <;> simp [uidStep, lastJoinUidRev, lastJoinUid]

/-- Helper for C10: the `to_cert_store` loop yields exactly one trust anchor
per cached entry when every entry hex-decodes and its bytes parse. -/
theorem certStoreLoop_ok {α : Type} (parseCert : List Nat → Option α) :
    ∀ entries : List (String × String),
      (∀ p ∈ entries, ∃ bytes, hexDecode p.2.data = some bytes ∧ (parseCert bytes).isSome)
      → ∃ anchors, certStoreLoop parseCert entries = .ok anchors
          ∧ anchors.length = entries.length
  | [] => fun _ => ⟨[], rfl, rfl⟩
  | (k, v) :: rest => fun h => by
    obtain ⟨bytes, hdec, hps⟩ := h (k, v) (List.mem_cons_self _ _)
    obtain ⟨anchor, hanchor⟩ := Option.isSome_iff_exists.mp hps
    obtain ⟨anchors, hloop, hlen⟩ :=
      certStoreLoop_ok parseCert rest (fun p hp => h p (List.mem_cons_of_mem _ hp))
    refine ⟨anchor :: anchors, ?_, by simp [hlen]⟩
    simp [certStoreLoop, hdec, hanchor, hloop]

/-- C5: `get_fingerprint` returns `None` for an absent host and the decoded
bytes for a valid entry, but on a stored value that is not valid hex it
panics (the unchecked `hex::decode(..).unwrap()`) instead of reporting a
`CacheDecodeError` value — the divergence from the claim. -/
theorem c5_get_fingerprint_crashes_on_corrupt_entry :
    FingerprintCache.get_fingerprint ⟨[("relay.example", "zz")]⟩ "other.example" = .ok none
    ∧ FingerprintCache.get_fingerprint ⟨[("relay.example", "00ff")]⟩ "relay.example"
        = .ok (some [0, 255])
    ∧ FingerprintCache.get_fingerprint ⟨[("relay.example", "zz")]⟩ "relay.example" = .crash :=
  ⟨rfl, rfl, rfl⟩

/-- C10: when every cached value is valid hex and its decoded bytes parse as
a certificate, `to_cert_store` returns a root store with one trust anchor
per cached entry; a cache holding a value that is not valid hex, or one
whose decoded bytes the certificate parser rejects, makes it panic instead
of returning an error value. -/
theorem c10_to_cert_store_anchors_or_crash {α : Type} (parseCert : List Nat → Option α)
    (c : FingerprintCache)
    (h : ∀ p ∈ c.fingerprints,
      ∃ bytes, hexDecode p.2.data = some bytes ∧ (parseCert bytes).isSome) :
    (∃ anchors, c.to_cert_store parseCert = .ok anchors
        ∧ anchors.length = c.fingerprints.length)
    ∧ FingerprintCache.to_cert_store (fun bs => some bs) ⟨[("h", "zz")]⟩ = .crash
    ∧ FingerprintCache.to_cert_store (fun _ : List Nat => (none : Option Unit)) ⟨[("h", "00")]⟩
        = .crash :=
  ⟨certStoreLoop_ok parseCert c.fingerprints h, rfl, rfl⟩

/-- Witness for C10 at a concrete one-entry cache of valid hex. -/
theorem c10_to_cert_store_anchors_or_crash_witness :
    ∃ anchors, FingerprintCache.to_cert_store (fun bs => some bs) ⟨[("a", "00ff")]⟩
      = .ok anchors ∧ anchors.length = 1 := by
  refine (c10_to_cert_store_anchors_or_crash (fun bs : List Nat => some bs)
    ⟨[("a", "00ff")]⟩ ?_).1
  intro p hp
  rw [List.mem_singleton] at hp
  subst hp
  exact ⟨[0, 255], rfl, rfl⟩

/-- C1: the trust decision is not a function of the fingerprint store:
`verify_server_cert` accepts every presented certificate unconditionally,
and `NVDARemote::new` — which never reads any `FingerprintCache` — succeeds
for a host that has no entry in the store whenever the transport,
server-name and TLS steps succeed.  No `TrustRejected` or `TrustMismatch`
outcome exists (`NVDARemoteError` has no such variants). -/
theorem c1_trust_decision_ignores_store (c : FingerprintCache) (host : String)
    (hAbsent : c.contains host = false) :
    (∀ cert inters ocsp now, verify_server_cert cert inters host ocsp now = .ok .assertion)
    ∧ (∀ key ct port sOk, sOk host = true →
        NVDARemote.new host key ct port (.ok ()) sOk (.ok ())
          = .ok (.ok ⟨host, port, key, ct.to_string, [], 0⟩)) := by
  refine ⟨fun _ _ _ _ => rfl, fun key ct port sOk hOk => ?_⟩
  simp [NVDARemote.new, hOk]

/-- Witness for C1: the empty store does not contain the default host, yet
the connection attempt succeeds. -/
theorem c1_trust_decision_ignores_store_witness :
    FingerprintCache.contains ⟨[]⟩ "nvdaremote.ru" = false
    ∧ NVDARemote.new "nvdaremote.ru" "key" .Slave 6837 (.ok ()) (fun _ => true) (.ok ())
        = .ok (.ok ⟨"nvdaremote.ru", 6837, "key", "slave", [], 0⟩) :=
  ⟨rfl, (c1_trust_decision_ignores_store ⟨[]⟩ "nvdaremote.ru" rfl).2
    "key" .Slave 6837 (fun _ => true) rfl⟩

/-- C9: `NVDARemote::new` panics when the host string is not a valid server
name, because the source `.unwrap()`s `ServerName::try_from`; when the name
is valid, every path returns a value (a connection or an IO/TLS error). -/
theorem c9_new_crashes_on_invalid_server_name :
    (NVDARemote.new "bad host" "key" .Slave 6837 (.ok ())
        (fun s => !(s.data.contains ' ')) (.ok ()) = .crash)
    ∧ (∀ host key ct port tcp sOk tls, sOk host = true →
        ∃ r, NVDARemote.new host key ct port tcp sOk tls = .ok r) := by
  refine ⟨rfl, fun host key ct port tcp sOk tls hOk => ?_⟩
  cases tcp with
  | error e => exact ⟨.error (.ioError e), rfl⟩
  | ok _ =>
    cases tls with
    | error e => exact ⟨.error (.tlsError e), by simp [NVDARemote.new, hOk]⟩
    | ok _ => exact ⟨.ok ⟨host, port, key, ct.to_string, [], 0⟩, by simp [NVDARemote.new, hOk]⟩

/-- Witness for C9 at a valid server name. -/
theorem c9_new_crashes_on_invalid_server_name_witness :
    ∃ r, NVDARemote.new "nvdaremote.ru" "key" .Slave 6837 (.ok ())
      (fun s => !(s.data.contains ' ')) (.ok ()) = .ok r :=
  c9_new_crashes_on_invalid_server_name.2 "nvdaremote.ru" "key" .Slave 6837 (.ok ())
    (fun s => !(s.data.contains ' ')) (.ok ()) rfl

/-- C6: a failed socket write makes `send` panic instead of returning a
`TransportError` value, and `update` answers a read error with the same
`None` as a clean end of stream — a transport read failure is
indistinguishable from "no more events", and no transport-error value is
ever produced by `send` or `update`. -/
theorem c6_transport_failures_are_not_error_values :
    (∀ st msg e, NVDARemote.send st msg (.error e) = .crash)
    ∧ (∀ st : NVDARemote, st.update [.readErr] = .ok (none, st, []))
    ∧ (∀ st : NVDARemote, st.update [] = .ok (none, st, [])) :=
  ⟨fun _ _ _ => rfl, fun _ => rfl, fun _ => rfl⟩

/-- C2: a record that is not valid JSON makes `parse` panic on the
`serde_json::from_str(..).unwrap()`: the input `not json at all` crashes
instead of producing `Invalid("not json at all")`.  A record lacking a
required field of its recognized type also crashes; only a record with a
missing or unrecognized `type` degrades to `Invalid`. -/
theorem c2_parse_crashes_on_invalid_json :
    (∀ st : NVDARemote, st.parse "not json at all" = .crash)
    ∧ (∀ st : NVDARemote, st.parse "\x7b\"type\":\"motd\"\x7d" = .crash)
    ∧ (∀ st : NVDARemote, st.parse "\x7b\"type\":\"wat\"\x7d"
        = .ok (.Invalid "\x7b\"type\":\"wat\"\x7d", st)) :=
  ⟨fun _ => rfl, fun _ => rfl, fun _ => rfl⟩

/-- C3: delivering two newline-terminated records in one read burst is not
equivalent to delivering them one record per read: `update` creates a fresh
`BufReader` each call, whose internal buffer — holding everything after the
first newline of the burst — is dropped when the call returns, so the second
record is lost.  The same two records delivered separately both arrive. -/
theorem c3_chunking_changes_event_sequence :
    runUpdates 3 ⟨"h", 6837, "k", "slave", [], 0⟩
        [.data ("\x7b\"type\":\"channel_left\"\x7d\n\x7b\"type\":\"motd\",\"motd\":\"hi\"\x7d\n").data]
      = .ok ([.ChannelLeft], ⟨"h", 6837, "k", "slave", [], 0⟩)
    ∧ runUpdates 3 ⟨"h", 6837, "k", "slave", [], 0⟩
        [.data ("\x7b\"type\":\"channel_left\"\x7d\n").data,
         .data ("\x7b\"type\":\"motd\",\"motd\":\"hi\"\x7d\n").data]
      = .ok ([.ChannelLeft, .Motd "hi"], ⟨"h", 6837, "k", "slave", [], 0⟩) :=
  ⟨rfl, rfl⟩

/-- C4 counterexample: loading a readable file whose contents do not decode
returns an error, so `load_from_file` does not absorb every failure. -/
theorem c4_load_error_on_undecodable_contents :
    FingerprintCache.load_from_file (.ok "x") = .error (.jsonError .err) :=
  rfl

/-- C4 amended: a read error (including a missing file) yields the empty
store and never an error, while a decode error of successfully read contents
is propagated as a `JsonError` rather than yielding an empty store. -/
theorem c4_load_fails_open_only_for_read_errors :
    (∀ e, FingerprintCache.load_from_file (.error e) = .ok ⟨[]⟩)
    ∧ (∀ s, cacheFromStr s = none →
        FingerprintCache.load_from_file (.ok s) = .error (.jsonError .err))
    ∧ (∀ s c, cacheFromStr s = some c → FingerprintCache.load_from_file (.ok s) = .ok c) := by
  refine ⟨fun _ => rfl, fun s h => ?_, fun s c h => ?_⟩ <;>
    simp [FingerprintCache.load_from_file, h]

/-- Witness for C4's amended claim at a concrete read error and concrete
undecodable contents. -/
theorem c4_load_fails_open_only_for_read_errors_witness :
    FingerprintCache.load_from_file (.error .err) = .ok ⟨[]⟩
    ∧ FingerprintCache.load_from_file (.ok "x") = .error (.jsonError .err) :=
  ⟨c4_load_fails_open_only_for_read_errors.1 .err,
   c4_load_fails_open_only_for_read_errors.2.1 "x" rfl⟩

/-- C7: starting from a fresh connection (membership id 0), after any
sequence of records that decodes without a panic the membership id equals
the origin of the most recent `ChannelJoined` since the last `ChannelLeft`
and `0` otherwise; and each single decoded record moves the id exactly by
its event's effect — `channel_joined` sets it to the decoded origin,
`channel_left` resets it to `0`, and no other event changes it. -/
theorem c7_uid_tracks_channel_membership (st : NVDARemote) (recs : List String)
    (evs : List EventType) (st' : NVDARemote) (h0 : st.uid = 0)
    (h : runParse st recs = .ok (evs, st')) :
    st'.uid = lastJoinUid evs
    ∧ (∀ s d ev s2, NVDARemote.parse s d = .ok (ev, s2) → s2.uid = uidStep s.uid ev) := by
  refine ⟨?_, fun s d ev s2 hp => parse_uid_step s d ev s2 hp⟩
  rw [runParse_uid recs st evs st' h, h0, foldl_uidStep_eq_lastJoinUid]

/-- Witness for C7: a join(42), leave, join(7) session ends with id 7. -/
theorem c7_uid_tracks_channel_membership_witness :
    runParse ⟨"h", 6837, "k", "slave", [], 0⟩
        ["\x7b\"type\":\"channel_joined\",\"origin\":42\x7d",
         "\x7b\"type\":\"channel_left\"\x7d",
         "\x7b\"type\":\"channel_joined\",\"origin\":7\x7d"]
      = .ok ([.ChannelJoined 42, .ChannelLeft, .ChannelJoined 7],
          ⟨"h", 6837, "k", "slave", [], 7⟩)
    ∧ (⟨"h", 6837, "k", "slave", [], 7⟩ : NVDARemote).uid
        = lastJoinUid [.ChannelJoined 42, .ChannelLeft, .ChannelJoined 7] :=
  ⟨rfl, (c7_uid_tracks_channel_membership ⟨"h", 6837, "k", "slave", [], 0⟩
      ["\x7b\"type\":\"channel_joined\",\"origin\":42\x7d",
       "\x7b\"type\":\"channel_left\"\x7d",
       "\x7b\"type\":\"channel_joined\",\"origin\":7\x7d"]
      [.ChannelJoined 42, .ChannelLeft, .ChannelJoined 7]
      ⟨"h", 6837, "k", "slave", [], 7⟩ rfl rfl).1⟩

/-- C8: the store round-trips through persistence — loading a saved store
succeeds and yields a store whose save produces byte-identical file content,
so save-load-save is idempotent on the cache file.  The hypothesis is the
`HashMap` invariant that hosts are unique keys (the model's association list
stands for the map). -/
theorem c8_save_load_save_idempotent (c : FingerprintCache)
    (h : (c.fingerprints.map Prod.fst).Nodup) :
    ∃ c2, FingerprintCache.load_from_file (.ok c.save_to_string) = .ok c2
      ∧ c2.save_to_string = c.save_to_string :=
  ⟨c, load_save_roundtrip c h, rfl⟩

/-- Witness for C8 at a concrete two-entry cache. -/
theorem c8_save_load_save_idempotent_witness :
    ((FingerprintCache.mk [("a.example", "00ff"), ("b.example", "1234")]).fingerprints.map
        Prod.fst).Nodup
    ∧ ∃ c2, FingerprintCache.load_from_file
          (.ok (FingerprintCache.mk
            [("a.example", "00ff"), ("b.example", "1234")]).save_to_string)
        = .ok c2
      ∧ c2.save_to_string
          = (FingerprintCache.mk
              [("a.example", "00ff"), ("b.example", "1234")]).save_to_string :=
  ⟨by decide, c8_save_load_save_idempotent
    (FingerprintCache.mk [("a.example", "00ff"), ("b.example", "1234")]) (by decide)⟩

end NvdaRemote
